import Mathlib

/-!
Shallow embedding of the core of the sdb debugger library (Linux/x86-64,
"Building a Debugger") and proofs about its hardware-stoppoint engine,
range-list iterator, LEB128 decoding, memory views, address conversion,
watchpoints and stop classification.

Machine integers are modelled as `Nat` with explicit reduction `% 2 ^ w`
where C++ unsigned wrap-around matters, and with explicit two's-complement
pattern bookkeeping where C++ `int` values flow into `uint64_t` contexts.
-/

/-! ## Machine-integer helpers -/

/-- Bit pattern of a C++ 32-bit `int` holding the low 32 bits of `n`
(the result pattern of an overflowing shift or arithmetic on `int`). -/
def wrap32 (n : Nat) : Nat := n % 2 ^ 32

/-- Bit pattern of `~p` for a 32-bit `int` whose pattern is `p`. -/
def not32 (p : Nat) : Nat := 0xFFFFFFFF ^^^ p

/-- Usual-arithmetic conversion of a 32-bit `int` (pattern `p`) to
`uint64_t`: sign-extension of the pattern. -/
def int32ToUInt64 (p : Nat) : Nat :=
  if p < 2 ^ 31 then p else p + (2 ^ 64 - 2 ^ 32)

/-- Two's-complement reinterpretation of a `uint64_t` value as `int64_t`. -/
def toInt64 (r : Nat) : Int :=
  if r < 2 ^ 63 then (r : Int) else (r : Int) - 2 ^ 64

/-! ## Debug-register (DR7) engine — `src/src/process.cpp` -/

/-- `sdb::StoppointMode` from `include/libsdb/types.hpp`. -/
inductive StoppointMode
  | write
  | read_write
  | execute
deriving DecidableEq, Repr

/-- `EncodeHardwareStoppointMode` (process.cpp): DR7 mode-field encoding. -/
def EncodeHardwareStoppointMode : StoppointMode → Nat
  | .write => 0b01
  | .read_write => 0b11
  | .execute => 0b00

/-- `EncodeHardwareStoppointSize` (process.cpp): DR7 size-field encoding;
`none` models the thrown invalid-size error. -/
def EncodeHardwareStoppointSize : Nat → Option Nat
  | 1 => some 0b00
  | 2 => some 0b01
  | 4 => some 0b11
  | 8 => some 0b10
  | _ => none

/-- `FindFreeStoppointRegister` (process.cpp): the four-iteration loop over
the two-bit enable fields of DR7; `none` models the thrown
no-remaining-register error. -/
def FindFreeStoppointRegister (control : Nat) : Option Nat :=
  if control &&& (0b11 <<< (0 * 2)) = 0 then some 0
  else if control &&& (0b11 <<< (1 * 2)) = 0 then some 1
  else if control &&& (0b11 <<< (2 * 2)) = 0 then some 2
  else if control &&& (0b11 <<< (3 * 2)) = 0 then some 3
  else none

/-- `sdb::Process::SetHardwareStoppoint` (process.cpp). Input: the current
DR7 value, the target address, mode and size. Output: `some (free, dri,
dr7)` — the chosen index, the value written to DR_free, and the new DR7 —
or `none` for a thrown error. The C++ `clear_mask` is an `int`, so the
`0b1111 << (free_space * 4 + 16)` shift wraps into the sign bit for
`free_space == 3` (`wrap32`), and `control & ~clear_mask` sign-extends the
complemented pattern to 64 bits (`int32ToUInt64`). (For an invalid size
the C++ throws only after the DR write; that write is not observable in
this pure model.) -/
def SetHardwareStoppoint (dr7 address : Nat) (mode : StoppointMode)
    (size : Nat) : Option (Nat × Nat × Nat) :=
  match FindFreeStoppointRegister dr7 with
  | none => none
  | some free_space =>
    let mode_flag := EncodeHardwareStoppointMode mode
    match EncodeHardwareStoppointSize size with
    | none => none
    | some size_flag =>
      let enable_bit := 1 <<< (free_space * 2)
      let mode_bits := mode_flag <<< (free_space * 4 + 16)
      let size_bits := size_flag <<< (free_space * 4 + 18)
      let clear_mask := (0b11 <<< (free_space * 2)) |||
        wrap32 (0b1111 <<< (free_space * 4 + 16))
      let masked := dr7 &&& int32ToUInt64 (not32 clear_mask)
      some (free_space, address, masked ||| (enable_bit ||| mode_bits ||| size_bits))

/-- `sdb::Process::ClearHardwareStoppoint` (process.cpp). Input: slot index
and current DR7. Output: the value written to DR_index (always 0) and the
new DR7. The source's clear mask is `(0b11 << (index * 2)) | (0b1111 <<
(index + 16))` — note `index + 16`, not `index * 4 + 16`. -/
def ClearHardwareStoppoint (index dr7 : Nat) : Nat × Nat :=
  let clear_mask := (0b11 <<< (index * 2)) ||| (0b1111 <<< (index + 16))
  (0, dr7 &&& int32ToUInt64 (not32 (wrap32 clear_mask)))

/-- The clear mask exactly as claim C1 states it:
`(0b11 << 2i) | (0b1111 << (16 + 4i))`. -/
def claimClearMask (i : Nat) : Nat :=
  (0b11 <<< (2 * i)) ||| (0b1111 <<< (16 + 4 * i))

/-- DR7 update that claim C1 describes: clear exactly the bits of
`claimClearMask i`, leave every other bit unchanged. -/
def claimClearDr7 (i dr7 : Nat) : Nat :=
  dr7 &&& ((2 ^ 64 - 1) ^^^ claimClearMask i)

/-! ## DWARF cursor and range lists — `src/src/dwarf.cpp` -/

/-- `sdb::FromBytes<std::uint64_t>` (bit.hpp): little-endian assembly of a
64-bit value from eight bytes, as read by `Cursor::u64`. -/
def FromBytesU64 (b0 b1 b2 b3 b4 b5 b6 b7 : Nat) : Nat :=
  b0 + 2 ^ 8 * b1 + 2 ^ 16 * b2 + 2 ^ 24 * b3 +
  2 ^ 32 * b4 + 2 ^ 40 * b5 + 2 ^ 48 * b6 + 2 ^ 56 * b7

/-- `base_address_flag` from `RangeList::Iterator::operator++` (dwarf.cpp
line 356), exactly as written: `-static_cast<std::int64_t>(0)`. -/
def base_address_flag : Int := -(0 : Int)

/-- The flag value as compared against the `uint64_t` low word. -/
def baseAddressFlagU64 : Nat := (base_address_flag % 2 ^ 64).toNat

/-- Outcome of one `operator++` step of the range-list iterator. -/
inductive RangeStep
  | ranOffData
  | endOfList
  | entry (low high : Nat) (rest : List Nat)
deriving DecidableEq, Repr

/-- `sdb::RangeList::Iterator::operator++` (dwarf.cpp): reads successive
pairs of little-endian 8-byte values from the remaining `.debug_ranges`
bytes. `ranOffData` models the cursor reading past the end of the span
(the C++ loop never checks for exhaustion). Entry bounds wrap like the
`FileAddress += offset` they come from. -/
def RangeListNext (base : Nat) : List Nat → RangeStep
  | a0 :: a1 :: a2 :: a3 :: a4 :: a5 :: a6 :: a7 ::
    b0 :: b1 :: b2 :: b3 :: b4 :: b5 :: b6 :: b7 :: rest =>
    let low := FromBytesU64 a0 a1 a2 a3 a4 a5 a6 a7
    let high := FromBytesU64 b0 b1 b2 b3 b4 b5 b6 b7
    if low = baseAddressFlagU64 then
      RangeListNext high rest
    else if low = 0 ∧ high = 0 then
      .endOfList
    else
      .entry ((low + base) % 2 ^ 64) ((high + base) % 2 ^ 64) rest
  | _ => .ranOffData

/-! ## LEB128 decoding — `Cursor::sleb128` (dwarf.cpp) -/

/-- The do/while loop of `Cursor::sleb128` (and `uleb128`): reads bytes,
ORs the low 7 bits of each into `result` at the running `shift`, stops at
the first byte with the high bit clear. Returns the final `result`,
`shift` and stop byte; `none` models reading past the end of the data.
The C++ shift `masked << shift` is a `uint64_t` shift, hence `% 2 ^ 64`
(undefined in C++ once `shift ≥ 64`). -/
def sleb128Loop : List Nat → Nat → Nat → Option (Nat × Nat × Nat)
  | [], _, _ => none
  | byte :: rest, result, shift =>
    let masked := byte &&& 0x7f
    let result := result ||| (masked <<< shift) % 2 ^ 64
    let shift := shift + 7
    if byte &&& 0x80 ≠ 0 then sleb128Loop rest result shift
    else some (result, shift, byte)

/-- `Cursor::sleb128` (dwarf.cpp): after the loop, sign-extend by ORing in
`~int64_t(0) << shift` when the stop byte has bit 0x40 set and
`shift < 64`; the result is returned as `int64_t`. -/
def sleb128 (data : List Nat) : Option Int :=
  match sleb128Loop data 0 0 with
  | none => none
  | some (result, shift, byte) =>
    let result :=
      if shift < 64 ∧ byte &&& 0x40 ≠ 0 then
        result ||| ((2 ^ 64 - 1) <<< shift) % 2 ^ 64
      else result
    some (toInt64 result)

/-- Valid signed-LEB128 encoding: non-empty, every byte is a byte, all but
the last have the continuation bit 0x80 set, the last has it clear. This
predicate is part of stating claim C8 (it is the domain "byte sequence
that encodes a signed LEB128 value"). -/
def IsSlebEncoding : List Nat → Prop
  | [] => False
  | [b] => b < 256 ∧ b &&& 0x80 = 0
  | b :: rest => b < 256 ∧ b &&& 0x80 ≠ 0 ∧ IsSlebEncoding rest

instance instDecIsSlebEncoding : ∀ l, Decidable (IsSlebEncoding l)
  | [] => by unfold IsSlebEncoding; infer_instance
  | [_] => by unfold IsSlebEncoding; infer_instance
  | _ :: b :: rest => by
    unfold IsSlebEncoding
    have ih := instDecIsSlebEncoding (b :: rest)
    infer_instance

/-- Unsigned accumulation of the 7-bit groups, little-endian. -/
def slebRaw : List Nat → Nat
  | [] => 0
  | b :: rest => (b &&& 0x7f) + 2 ^ 7 * slebRaw rest

/-- The mathematical signed LEB128 value of an encoding (DWARF 4 §7.6):
the 7-bit groups assembled little-endian, two's-complement signed with the
sign given by bit 0x40 of the last byte. This is the reference value
claim C8 compares the decoder against. -/
def slebValue (l : List Nat) : Int :=
  if l.getLastD 0 &&& 0x40 ≠ 0 then (slebRaw l : Int) - 2 ^ (7 * l.length)
  else (slebRaw l : Int)

/-! ## Breakpoint sites and memory views — process.cpp, breakpoint_site.hpp -/

/-- `sdb::BreakpointSite` (include/libsdb/breakpoint_site.hpp), the fields
relevant to memory reads. Addresses and bytes are `Nat` (uint64 / byte). -/
structure BreakpointSite where
  id : Int
  address : Nat
  is_enabled : Bool
  saved_data : Nat
  is_hardware : Bool
  is_internal : Bool
deriving DecidableEq, Repr

/-- `BreakpointSite::IsInRange` (breakpoint_site.hpp):
`low <= address_ && high > address_`. -/
def BreakpointSite.IsInRange (s : BreakpointSite) (low high : Nat) : Bool :=
  low ≤ s.address && high > s.address

/-- `StoppointCollection::GetInRegion` (stoppoint_collection.hpp): the
sites whose `IsInRange low high` holds, in collection order. -/
def GetInRegion (sites : List BreakpointSite) (low high : Nat) :
    List BreakpointSite :=
  sites.filter (fun s => s.IsInRange low high)

/-- `sdb::Process::ReadMemory` (process.cpp): the scatter read returns the
bytes of the inferior at `address .. address + amount - 1`; the remote
address advances with uint64 wrap-around across the page-split loop. The
inferior memory is a byte function on 64-bit addresses. -/
def ReadMemory (mem : Nat → Nat) (address amount : Nat) : List Nat :=
  (List.range amount).map fun i => mem ((address + i) % 2 ^ 64)

/-- `sdb::Process::ReadMemoryWithoutTraps` (process.cpp): after a raw
read, each site of `GetInRegion address (address + amount)` that is
enabled and not hardware overwrites `memory[site.address - address]` with
its saved byte. -/
def ReadMemoryWithoutTraps (mem : Nat → Nat) (sites : List BreakpointSite)
    (address amount : Nat) : List Nat :=
  let memory := ReadMemory mem address amount
  let inRegion := GetInRegion sites address ((address + amount) % 2 ^ 64)
  inRegion.foldl
    (fun memory site =>
      if !site.is_enabled || site.is_hardware then memory
      else memory.set (site.address - address) site.saved_data)
    memory

/-- Memory effect of `BreakpointSite::Disable` (breakpoint_site.cpp) on a
software site: the word at the site's address gets its low byte replaced
by `saved_data_`, i.e. the byte at the site's address becomes the saved
byte and no other byte changes. -/
def DisableSiteMemory (mem : Nat → Nat) (s : BreakpointSite) : Nat → Nat :=
  fun x => if x = s.address then s.saved_data else mem x

/-- Inferior memory after disabling every site of a list in turn. -/
def DisableAllMemory (mem : Nat → Nat) (sites : List BreakpointSite) :
    Nat → Nat :=
  sites.foldl DisableSiteMemory mem

/-! ## Watchpoints — watchpoint.cpp / watchpoint.hpp -/

/-- `sdb::Watchpoint` (include/libsdb/watchpoint.hpp). `data` and
`previous_data` are the uint64 fields initialised to 0. -/
structure Watchpoint where
  address : Nat
  mode : StoppointMode
  size : Nat
  is_enabled : Bool := false
  data : Nat := 0
  previous_data : Nat := 0
deriving DecidableEq, Repr

/-- `sdb::Watchpoint::Watchpoint` (watchpoint.cpp): the constructor throws
an alignment error iff `(address & (size - 1)) != 0`; otherwise the
watchpoint starts disabled with zeroed data. `size` is a `std::size_t`,
so `size - 1` wraps: at size 0 the mask is `2 ^ 64 - 1` and the check
rejects every nonzero address. -/
def WatchpointCtor (address : Nat) (mode : StoppointMode) (size : Nat) :
    Except String Watchpoint :=
  if address &&& ((2 ^ 64 + size - 1) % 2 ^ 64) ≠ 0 then
    .error "Watchpoints must be aligned to their size"
  else
    .ok { address := address, mode := mode, size := size }

/-- `sdb::Process::CreateWatchpoint` (process.cpp): fails if a watchpoint
already exists at the address (`StoppointCollection::ContainsAddress`),
otherwise constructs one and pushes it onto the collection. -/
def CreateWatchpoint (watchpoints : List Watchpoint) (address : Nat)
    (mode : StoppointMode) (size : Nat) : Except String (List Watchpoint) :=
  if watchpoints.any (fun w => w.address = address) then
    .error "Watchpoint already created at address"
  else
    match WatchpointCtor address mode size with
    | .error e => .error e
    | .ok w => .ok (watchpoints ++ [w])

/-- Little-endian value of a byte list (how a multi-byte read becomes the
uint64 `data_` of a watchpoint). -/
def FromLeBytes : List Nat → Nat
  | [] => 0
  | b :: rest => b + 2 ^ 8 * FromLeBytes rest

/-- Modelled from the spec: `sdb::Watchpoint::UpdateData` is declared in
`include/libsdb/watchpoint.hpp` (line 40) and called from
`Process::WaitOnSignal`, but its definition is not among the sources.
Per the spec (§4.3), it "reads `size` bytes from the inferior at the
address, stores the current value into `previous_data`, then into
`data`": the value read becomes the new `data` and the value that was
current before the call becomes `previous_data`. -/
def UpdateData (mem : Nat → Nat) (w : Watchpoint) : Watchpoint :=
  let new_data := FromLeBytes (ReadMemory mem w.address w.size)
  { w with previous_data := w.data, data := new_data }

/-! ## Address types and the ELF loader — types.cpp, elf.cpp -/

/-- The parts of `sdb::Elf` used by address conversion: an identity (the
C++ object address, used for `elf_ == &obj` checks), the section headers
as `(sh_addr, sh_size)` pairs in table order, and the load bias. -/
structure Elf where
  ident : Nat
  sections : List (Nat × Nat)
  load_bias : Nat
deriving DecidableEq, Repr

/-- `sdb::FileAddress` (types.hpp): a uint64 address plus the ELF it is
bound to (`none` models the null `elf_` of a default `FileAddress`). -/
structure FileAddress where
  elf : Option Elf
  addr : Nat
deriving DecidableEq, Repr

/-- `FileAddress::operator==` (types.hpp): both the address and the ELF
identity must match (null pointers compare by both being null). -/
def FileAddress.eq (a b : FileAddress) : Bool :=
  a.addr = b.addr && (a.elf.map Elf.ident) = (b.elf.map Elf.ident)

/-- `sdb::Elf::GetSectionContainingAddress(FileAddress)` (elf.cpp): reject
addresses bound to a different ELF, else first section with
`sh_addr <= a && sh_addr + sh_size > a` (uint64 sums wrap). -/
def GetSectionContainingFileAddress (e : Elf) (fa : FileAddress) :
    Option (Nat × Nat) :=
  if (fa.elf.map Elf.ident) ≠ some e.ident then none
  else e.sections.find? fun s =>
    s.1 ≤ fa.addr && (s.1 + s.2) % 2 ^ 64 > fa.addr

/-- `sdb::Elf::GetSectionContainingAddress(VirtualAddress)` (elf.cpp):
first section with `load_bias_ + sh_addr <= va` and
`load_bias_ + sh_addr + sh_size > va` (uint64 sums wrap). -/
def GetSectionContainingVirtualAddress (e : Elf) (va : Nat) :
    Option (Nat × Nat) :=
  e.sections.find? fun s =>
    (e.load_bias + s.1) % 2 ^ 64 ≤ va &&
    (e.load_bias + s.1 + s.2) % 2 ^ 64 > va

/-- `sdb::FileAddress::ToVirtualAddress` (types.cpp): asserts `elf_` is
non-null (`none` models the assertion failure); if no section of the
*bound* ELF contains the address the result is the null (default)
`VirtualAddress{}`, i.e. address 0; otherwise `addr_ + load bias`. The
`obj` parameter is accepted but never used, exactly as in the source. -/
def ToVirtualAddress (fa : FileAddress) (obj : Elf) : Option Nat :=
  match fa.elf with
  | none => none
  | some e =>
    if (GetSectionContainingFileAddress e fa).isNone then some 0
    else some ((fa.addr + e.load_bias) % 2 ^ 64)

/-- `sdb::VirtualAddress::ToFileAddress` (types.cpp): if no section of
`obj` contains the virtual address, the null (default) `FileAddress()`;
otherwise a `FileAddress` bound to `obj` with `address_ - load bias`
(uint64 subtraction wraps). -/
def ToFileAddress (va : Nat) (obj : Elf) : FileAddress :=
  if (GetSectionContainingVirtualAddress obj va).isNone then
    { elf := none, addr := 0 }
  else
    { elf := some obj, addr := (2 ^ 64 + va - obj.load_bias % 2 ^ 64) % 2 ^ 64 }

/-! ## Stop classification — `sdb::StopReason` (process.cpp) -/

/-- `sdb::ProcessState` (process.hpp). -/
inductive ProcessState
  | Stopped
  | Running
  | Exited
  | Terminated
deriving DecidableEq, Repr

/-- glibc `WIFEXITED`: `(status & 0x7f) == 0`. -/
def WIFEXITED (status : Nat) : Prop := status &&& 0x7f = 0

/-- glibc `WIFSIGNALED`: `((signed char)(((status & 0x7f) + 1) >> 1)) > 0`
(the cast wraps 128 to -128; arithmetic right shift of the signed char). -/
def WIFSIGNALED (status : Nat) : Prop :=
  (fun sc : Int => sc / 2 > 0)
    (if (status &&& 0x7f) + 1 < 128 then (((status &&& 0x7f) + 1 : Nat) : Int)
     else (((status &&& 0x7f) + 1 : Nat) : Int) - 256)

/-- glibc `WIFSTOPPED`: `(status & 0xff) == 0x7f`. -/
def WIFSTOPPED (status : Nat) : Prop := status &&& 0xff = 0x7f

/-- glibc `WEXITSTATUS`: `(status >> 8) & 0xff`. -/
def WEXITSTATUS (status : Nat) : Nat := (status >>> 8) &&& 0xff

/-- glibc `WTERMSIG`: `status & 0x7f`. -/
def WTERMSIG (status : Nat) : Nat := status &&& 0x7f

/-- glibc `WSTOPSIG`: `WEXITSTATUS(status)`. -/
def WSTOPSIG (status : Nat) : Nat := WEXITSTATUS status

instance (s : Nat) : Decidable (WIFEXITED s) := by unfold WIFEXITED; infer_instance

instance (s : Nat) : Decidable (WIFSIGNALED s) := by unfold WIFSIGNALED; infer_instance

instance (s : Nat) : Decidable (WIFSTOPPED s) := by unfold WIFSTOPPED; infer_instance

/-- `sdb::StopReason::StopReason(int wait_status)` (process.cpp): assigns
`reason`/`info` in the three `WIF*` branches; any other status leaves the
members unassigned, modelled as `none` (an indeterminate value in C++). -/
def StopReasonCtor (wait_status : Nat) : Option ProcessState × Option Nat :=
  if WIFEXITED wait_status then
    (some .Exited, some (WEXITSTATUS wait_status))
  else if WIFSIGNALED wait_status then
    (some .Terminated, some (WTERMSIG wait_status))
  else if WIFSTOPPED wait_status then
    (some .Stopped, some (WSTOPSIG wait_status))
  else
    (none, none)

/-! ## Generic bit-level helpers -/

/-- A bit that the AND mask keeps and the OR mask does not set is
unchanged by `(x &&& C) ||| D`. -/
theorem testBit_and_or_of_masks (x C D b : Nat) (hC : C.testBit b = true)
    (hD : D.testBit b = false) :
    ((x &&& C) ||| D).testBit b = x.testBit b := by
  rw [Nat.testBit_or, Nat.testBit_and, hC, hD]
  simp

/-- ORing a multiple of `2 ^ k` into a value below `2 ^ k` is addition. -/
theorem lor_two_pow_mul (k x m : Nat) (hx : x < 2 ^ k) :
    x ||| 2 ^ k * m = 2 ^ k * m + x := by
  apply Nat.eq_of_testBit_eq
  intro j
  rw [Nat.testBit_or, Nat.testBit_mul_pow_two_add _ hx, Nat.testBit_mul_pow_two]
  by_cases h : j < k
  · simp [h, Nat.not_le.mpr h]
  · have hxj : x.testBit j = false :=
      Nat.testBit_lt_two_pow
        (lt_of_lt_of_le hx (Nat.pow_le_pow_right (by norm_num) (Nat.le_of_not_lt h)))
    simp [h, hxj, Nat.le_of_not_lt h]

/-- The two-bit field of `x` at position `s`, expressed by its bits. -/
theorem shiftRight_mod_four (x s : Nat) :
    (x >>> s) % 4 = (x.testBit s).toNat + 2 * (x.testBit (s + 1)).toNat := by
  rw [Nat.shiftRight_eq_div_pow]
  have h1 : x.testBit s = decide (x / 2 ^ s % 2 = 1) := Nat.testBit_to_div_mod
  have h2 : x.testBit (s + 1) = decide (x / 2 ^ (s + 1) % 2 = 1) :=
    Nat.testBit_to_div_mod
  have h3 : x / 2 ^ (s + 1) = x / 2 ^ s / 2 := by
    rw [pow_succ, Nat.div_div_eq_div_mul]
  rw [h1, h2, h3]
  by_cases c1 : x / 2 ^ s % 2 = 1 <;> by_cases c2 : x / 2 ^ s / 2 % 2 = 1 <;>
    simp [c1, c2] <;> omega

/-- A value below 4 is the sum of its two bits. -/
theorem eq_of_lt_four (m : Nat) (hm : m < 4) :
    (m.testBit 0).toNat + 2 * (m.testBit 1).toNat = m := by
  interval_cases m <;> decide

/-! ## C1 — `ClearHardwareStoppoint`'s DR7 clear mask -/

/-- C1 counterexample/evaluation: for index 1 and prior DR7 `0xF00004`
(slot-1 enable bit 2 and slot-1 mode/size bits 20–23 set), the source
clears DR7 bits 2, 3 and 17–20 (mask `0b1111 << (index + 16)`), leaving
`0xE00000`, while the claim's mask `(0b11 << 2i) | (0b1111 << (16 + 4i))`
would clear bits 2, 3 and 20–23, leaving 0. The two disagree, so
`ClearHardwareStoppoint` does not clear the bits the claim names. -/
theorem C1_clear_mask_bug :
    ClearHardwareStoppoint 1 0xF00004 = (0, 0xE00000) ∧
    claimClearDr7 1 0xF00004 = 0 ∧
    (ClearHardwareStoppoint 1 0xF00004).2 ≠ claimClearDr7 1 0xF00004 := by
  refine ⟨by decide, by decide, by decide⟩

/-! ## C2 — the range-list iterator -/

/-- C2 counterexample/evaluation: the iterator's base-address flag is
written `-static_cast<std::int64_t>(0)`, which is 0, not the all-ones
value. Consequently (i) on the end-of-list pair `(0, 0)` the iterator
takes the base-address branch (the `(0,0)` test is unreachable) and runs
off the end of the data instead of becoming the end iterator, and (ii) a
pair whose low half is all-ones is treated as a regular entry
`[base + low, base + high)` (wrapping) instead of updating the base. -/
theorem C2_range_list_flag_bug :
    baseAddressFlagU64 = 0 ∧
    baseAddressFlagU64 ≠ 0xFFFFFFFFFFFFFFFF ∧
    RangeListNext 0 (List.replicate 16 0) = .ranOffData ∧
    RangeListNext 0 (List.replicate 16 0) ≠ .endOfList ∧
    RangeListNext 7
      (List.replicate 8 0xFF ++ (0x10 :: List.replicate 7 0) ++
        [5, 0, 0, 0, 0, 0, 0, 0, 9, 0, 0, 0, 0, 0, 0, 0]) =
      .entry 6 23 [5, 0, 0, 0, 0, 0, 0, 0, 9, 0, 0, 0, 0, 0, 0, 0] := by
  refine ⟨by decide, by decide, by decide, by decide, by decide⟩

/-- Bits at or above the width bound of a value are clear. -/
theorem testBit_false_of_le (x k b : Nat) (hx : x < 2 ^ k) (hb : k ≤ b) :
    x.testBit b = false :=
  Nat.testBit_lt_two_pow
    (lt_of_lt_of_le hx (Nat.pow_le_pow_right (by norm_num) hb))

/-! ## C5 — `SetHardwareStoppoint` -/

/-- The free-register scan returns the lowest index whose two-bit enable
field is clear. -/
theorem findFree_eq_of_least (dr7 i : Nat) (hi : i < 4)
    (hfree : dr7 &&& (0b11 <<< (i * 2)) = 0)
    (hlow : ∀ j, j < i → dr7 &&& (0b11 <<< (j * 2)) ≠ 0) :
    FindFreeStoppointRegister dr7 = some i := by
  interval_cases i
  · have hf : dr7 &&& 3 = 0 := by simpa using hfree
    simp [FindFreeStoppointRegister, hf]
  · have h0 : ¬dr7 &&& 3 = 0 := by simpa using hlow 0 (by omega)
    have hf : dr7 &&& 12 = 0 := by simpa using hfree
    simp [FindFreeStoppointRegister, hf, h0]
  · have h0 : ¬dr7 &&& 3 = 0 := by simpa using hlow 0 (by omega)
    have h1 : ¬dr7 &&& 12 = 0 := by simpa using hlow 1 (by omega)
    have hf : dr7 &&& 48 = 0 := by simpa using hfree
    simp [FindFreeStoppointRegister, hf, h0, h1]
  · have h0 : ¬dr7 &&& 3 = 0 := by simpa using hlow 0 (by omega)
    have h1 : ¬dr7 &&& 12 = 0 := by simpa using hlow 1 (by omega)
    have h2 : ¬dr7 &&& 48 = 0 := by simpa using hlow 2 (by omega)
    have hf : dr7 &&& 192 = 0 := by simpa using hfree
    simp [FindFreeStoppointRegister, hf, h0, h1, h2]

/-- Bit-level behaviour of `(dr7 &&& C) ||| D` for a DR7 update: the
enable bit is set, the two-bit mode and size fields read back as `mf` and
`sf`, and every bit outside the slot's enable bit and four-bit mode/size
field keeps its old value, under decidable side conditions on the two
masks. -/
theorem dr7_masked_or_props (dr7 C D i mf sf : Nat)
    (hdr7 : dr7 < 2 ^ 32) (hD32 : D < 2 ^ 32)
    (hd1 : dr7.testBit (2 * i + 1) = false)
    (hD1 : D.testBit (2 * i + 1) = false)
    (he : D.testBit (2 * i) = true)
    (hm0c : C.testBit (16 + 4 * i) = false)
    (hm0d : D.testBit (16 + 4 * i) = mf.testBit 0)
    (hm1c : C.testBit (16 + 4 * i + 1) = false)
    (hm1d : D.testBit (16 + 4 * i + 1) = mf.testBit 1)
    (hs0c : C.testBit (18 + 4 * i) = false)
    (hs0d : D.testBit (18 + 4 * i) = sf.testBit 0)
    (hs1c : C.testBit (18 + 4 * i + 1) = false)
    (hs1d : D.testBit (18 + 4 * i + 1) = sf.testBit 1)
    (hmf : mf < 4) (hsf : sf < 4)
    (hout : ∀ b, b < 32 → b ≠ 2 * i → b ≠ 2 * i + 1 →
      (b < 16 + 4 * i ∨ 19 + 4 * i < b) →
      C.testBit b = true ∧ D.testBit b = false) :
    ((dr7 &&& C) ||| D).testBit (2 * i) = true ∧
    (((dr7 &&& C) ||| D) >>> (16 + 4 * i)) % 4 = mf ∧
    (((dr7 &&& C) ||| D) >>> (18 + 4 * i)) % 4 = sf ∧
    ∀ b, b ≠ 2 * i → (b < 16 + 4 * i ∨ 19 + 4 * i < b) →
      ((dr7 &&& C) ||| D).testBit b = dr7.testBit b := by
  refine ⟨?_, ?_, ?_, ?_⟩
  · rw [Nat.testBit_or, he, Bool.or_true]
  · rw [shiftRight_mod_four]
    have e0 : ((dr7 &&& C) ||| D).testBit (16 + 4 * i) = mf.testBit 0 := by
      rw [Nat.testBit_or, Nat.testBit_and, hm0c, hm0d, Bool.and_false,
        Bool.false_or]
    have e1 : ((dr7 &&& C) ||| D).testBit (16 + 4 * i + 1) = mf.testBit 1 := by
      rw [Nat.testBit_or, Nat.testBit_and, hm1c, hm1d, Bool.and_false,
        Bool.false_or]
    rw [e0, e1, eq_of_lt_four mf hmf]
  · rw [shiftRight_mod_four]
    have e0 : ((dr7 &&& C) ||| D).testBit (18 + 4 * i) = sf.testBit 0 := by
      rw [Nat.testBit_or, Nat.testBit_and, hs0c, hs0d, Bool.and_false,
        Bool.false_or]
    have e1 : ((dr7 &&& C) ||| D).testBit (18 + 4 * i + 1) = sf.testBit 1 := by
      rw [Nat.testBit_or, Nat.testBit_and, hs1c, hs1d, Bool.and_false,
        Bool.false_or]
    rw [e0, e1, eq_of_lt_four sf hsf]
  · intro b hb1 hb2
    rcases Nat.lt_or_ge b 32 with hb | hb
    · by_cases hb' : b = 2 * i + 1
      · subst hb'
        rw [Nat.testBit_or, Nat.testBit_and, hd1, hD1, Bool.false_and,
          Bool.false_or]
      · obtain ⟨hct, hdf⟩ := hout b hb hb1 hb' hb2
        exact testBit_and_or_of_masks dr7 C D b hct hdf
    · have h1 : dr7.testBit b = false := testBit_false_of_le dr7 32 b hdr7 hb
      have h2 : D.testBit b = false := testBit_false_of_le D 32 b hD32 hb
      rw [Nat.testBit_or, Nat.testBit_and, h1, h2, Bool.false_and,
        Bool.false_or]

/-- C5 counterexample: the claim fails as stated at DR7 = `0x100000015`
(slots 0–2 busy, bit 32 set), address 0, write mode, size 1. Slot 3 is
chosen; the C++ `clear_mask` is a 32-bit `int` whose `0b1111 << 28` sets
the sign bit, so `~clear_mask` is a *positive* `int` that zero-extends to
64 bits, and `control & ~clear_mask` also clears DR7 bits 32–63: bit 32 —
neither the enable bit `1 << 6` nor in the mode/size field 28–31 — flips
from 1 to 0 instead of being left unchanged. -/
theorem C5_counterexample :
    SetHardwareStoppoint 0x100000015 0 .write 1 = some (3, 0, 0x10000055) ∧
    Nat.testBit 0x100000015 32 = true ∧
    Nat.testBit 0x10000055 32 = false := by
  refine ⟨by decide, by decide, by decide⟩

/-- C5 (amended): for every DR7 value whose bits 32–63 are zero (on
x86-64 they are reserved-zero), `SetHardwareStoppoint` chooses the lowest
index `i < 4` whose two enable bits `0b11 << 2i` are clear, writes the
address to DR_i, sets the enable bit `1 << 2i`, sets the two-bit mode
field at `16 + 4i` to the mode encoding (00=execute, 01=write,
11=read/write) and the two-bit size field at `18 + 4i` to the size
encoding (00=1, 01=2, 11=4, 10=8), leaves every DR7 bit outside
`{2i} ∪ [16+4i, 19+4i]` unchanged, and returns `i`; if all four enable
fields are non-zero it fails with the no-free-register error and changes
nothing. -/
theorem C5_set_hardware_stoppoint :
    (∀ dr7 address mode size i,
      dr7 < 2 ^ 32 →
      size = 1 ∨ size = 2 ∨ size = 4 ∨ size = 8 →
      i < 4 →
      dr7 &&& (0b11 <<< (i * 2)) = 0 →
      (∀ j, j < i → dr7 &&& (0b11 <<< (j * 2)) ≠ 0) →
      ∃ dr7' : Nat,
        SetHardwareStoppoint dr7 address mode size = some (i, address, dr7') ∧
        dr7'.testBit (2 * i) = true ∧
        (dr7' >>> (16 + 4 * i)) % 4 = EncodeHardwareStoppointMode mode ∧
        (dr7' >>> (18 + 4 * i)) % 4 = (EncodeHardwareStoppointSize size).getD 0 ∧
        (∀ b, b ≠ 2 * i → (b < 16 + 4 * i ∨ 19 + 4 * i < b) →
          dr7'.testBit b = dr7.testBit b)) ∧
    (∀ dr7 address mode size,
      (∀ j, j < 4 → dr7 &&& (0b11 <<< (j * 2)) ≠ 0) →
      SetHardwareStoppoint dr7 address mode size = none) := by
  constructor
  · intro dr7 address mode size i hdr7 hsize hi hfree hlow
    have hfind : FindFreeStoppointRegister dr7 = some i :=
      findFree_eq_of_least dr7 i hi hfree hlow
    have hd1 : dr7.testBit (2 * i + 1) = false := by
      have h := congrArg (fun x => x.testBit (2 * i + 1)) hfree
      simp only [Nat.testBit_and, Nat.zero_testBit] at h
      have hm : Nat.testBit (3 <<< (i * 2)) (2 * i + 1) = true := by
        rw [Nat.testBit_shiftLeft]
        have h2 : 2 * i + 1 - i * 2 = 1 := by omega
        have h3 : 2 * i + 1 ≥ i * 2 := by omega
        rw [h2]
        have h4 : decide (2 * i + 1 ≥ i * 2) = true := decide_eq_true h3
        rw [h4, Bool.true_and]
        decide
      rw [hm, Bool.and_true] at h
      exact h
    rcases hsize with rfl | rfl | rfl | rfl <;> cases mode <;>
      interval_cases i <;>
      simp only [SetHardwareStoppoint, hfind, EncodeHardwareStoppointSize,
        EncodeHardwareStoppointMode, Option.getD_some] <;>
      exact ⟨_, rfl, dr7_masked_or_props dr7 _ _ _ _ _ hdr7 (by decide) hd1
        (by decide) (by decide) (by decide) (by decide) (by decide) (by decide)
        (by decide) (by decide) (by decide) (by decide) (by decide) (by decide)
        (by decide)⟩
  · intro dr7 address mode size hbusy
    have h0 : ¬dr7 &&& 3 = 0 := by simpa using hbusy 0 (by omega)
    have h1 : ¬dr7 &&& 12 = 0 := by simpa using hbusy 1 (by omega)
    have h2 : ¬dr7 &&& 48 = 0 := by simpa using hbusy 2 (by omega)
    have h3 : ¬dr7 &&& 192 = 0 := by simpa using hbusy 3 (by omega)
    simp [SetHardwareStoppoint, FindFreeStoppointRegister, h0, h1, h2, h3]

/-- C5 witness: DR7 = 5 occupies slots 0 and 1, so a read/write size-4
watchpoint lands in slot 2; DR7 = 0x55 occupies all four slots, so
allocation fails. -/
theorem C5_witness :
    (∃ dr7' : Nat,
      SetHardwareStoppoint 5 0x1234 .read_write 4 = some (2, 0x1234, dr7') ∧
      dr7'.testBit (2 * 2) = true ∧
      (dr7' >>> (16 + 4 * 2)) % 4 = EncodeHardwareStoppointMode .read_write ∧
      (dr7' >>> (18 + 4 * 2)) % 4 = (EncodeHardwareStoppointSize 4).getD 0 ∧
      (∀ b, b ≠ 2 * 2 → (b < 16 + 4 * 2 ∨ 19 + 4 * 2 < b) →
        dr7'.testBit b = Nat.testBit 5 b)) ∧
    SetHardwareStoppoint 0x55 0 .write 1 = none := by
  constructor
  · exact C5_set_hardware_stoppoint.1 5 0x1234 .read_write 4 2 (by decide)
      (by decide) (by omega) (by decide)
      (fun j hj => by interval_cases j <;> decide)
  · exact C5_set_hardware_stoppoint.2 0x55 0 .write 1
      (fun j hj => by interval_cases j <;> decide)

/-! ## C8 — signed LEB128 decoding -/

/-- The raw 7-bit-group accumulation is bounded by `2 ^ (7·length)`. -/
theorem slebRaw_lt (l : List Nat) : slebRaw l < 2 ^ (7 * l.length) := by
  induction l with
  | nil => simp [slebRaw]
  | cons b rest ih =>
    have hb : b &&& 0x7f ≤ 0x7f := Nat.and_le_right
    have hpow : 2 ^ (7 * (b :: rest).length) = 2 ^ (7 * rest.length) * 2 ^ 7 := by
      rw [List.length_cons, Nat.mul_add, Nat.pow_add]
    rw [slebRaw, hpow]
    omega

/-- A nonempty list's `getLastD` does not depend on the default. -/
theorem getLastD_of_ne_nil (l : List Nat) (hl : l ≠ []) (d e : Nat) :
    l.getLastD d = l.getLastD e := by
  rw [List.getLastD_eq_getLast?, List.getLastD_eq_getLast?]
  cases h : l.getLast? with
  | none => exact absurd (List.getLast?_eq_none_iff.mp h) hl
  | some x => rfl

/-- A valid encoding is nonempty. -/
theorem IsSlebEncoding.ne_nil {l : List Nat} (h : IsSlebEncoding l) : l ≠ [] := by
  cases l with
  | nil => exact absurd h (by unfold IsSlebEncoding; exact not_false)
  | cons b rest => exact List.cons_ne_nil b rest


/-- ORing a value below `2 ^ shift` with a (truncated) left shift by
`shift` is addition modulo `2 ^ 64`. -/
theorem or_shift_mod (result g shift : Nat) (hres : result < 2 ^ shift)
    (hshift : shift ≤ 63) :
    result ||| (g <<< shift) % 2 ^ 64 = (result + g * 2 ^ shift) % 2 ^ 64 := by
  have hsplit : (2 : Nat) ^ 64 = 2 ^ (64 - shift) * 2 ^ shift := by
    rw [← Nat.pow_add]
    congr 1
    omega
  have h1 : (g <<< shift) % 2 ^ 64 = 2 ^ shift * (g % 2 ^ (64 - shift)) := by
    rw [Nat.shiftLeft_eq, hsplit, Nat.mul_mod_mul_right, Nat.mul_comm]
  have hmlt : g % 2 ^ (64 - shift) < 2 ^ (64 - shift) :=
    Nat.mod_lt _ (by positivity)
  have h3 : 2 ^ shift * (g % 2 ^ (64 - shift)) + result < 2 ^ 64 := by
    calc 2 ^ shift * (g % 2 ^ (64 - shift)) + result
        < 2 ^ shift * (g % 2 ^ (64 - shift)) + 2 ^ shift := by omega
      _ = 2 ^ shift * (g % 2 ^ (64 - shift) + 1) := by ring
      _ ≤ 2 ^ shift * 2 ^ (64 - shift) := Nat.mul_le_mul_left _ (by omega)
      _ = 2 ^ 64 := by rw [Nat.mul_comm, ← hsplit]
  calc result ||| (g <<< shift) % 2 ^ 64
      = result ||| 2 ^ shift * (g % 2 ^ (64 - shift)) := by rw [h1]
    _ = 2 ^ shift * (g % 2 ^ (64 - shift)) + result :=
        lor_two_pow_mul shift result _ hres
    _ = (2 ^ shift * (g % 2 ^ (64 - shift)) + result) % 2 ^ 64 :=
        (Nat.mod_eq_of_lt h3).symm
    _ = ((g <<< shift) % 2 ^ 64 + result) % 2 ^ 64 := by rw [h1]
    _ = ((g <<< shift) + result) % 2 ^ 64 := by rw [Nat.mod_add_mod]
    _ = (result + g * 2 ^ shift) % 2 ^ 64 := by
        rw [Nat.shiftLeft_eq, Nat.add_comm]

/-- One continuing step of the decoder loop. -/
theorem sleb128Loop_cons_cont (b : Nat) (rest : List Nat) (result shift : Nat)
    (h : b &&& 0x80 ≠ 0) :
    sleb128Loop (b :: rest) result shift =
      sleb128Loop rest (result ||| (b &&& 0x7f) <<< shift % 2 ^ 64) (shift + 7) := by
  conv_lhs => rw [sleb128Loop]
  rw [if_pos h]

/-- The stopping step of the decoder loop. -/
theorem sleb128Loop_cons_stop (b : Nat) (rest : List Nat) (result shift : Nat)
    (h : b &&& 0x80 = 0) :
    sleb128Loop (b :: rest) result shift =
      some (result ||| (b &&& 0x7f) <<< shift % 2 ^ 64, shift + 7, b) := by
  conv_lhs => rw [sleb128Loop]
  rw [if_neg (fun hn => hn h)]

/-- Invariant of the `sleb128` accumulation loop on a valid encoding whose
shifts never reach the 64-bit width: the loop ORs in disjoint 7-bit
groups, so it computes `result + slebRaw l · 2 ^ shift` modulo `2 ^ 64`,
advances `shift` by 7 per byte, and stops at the last byte. -/
theorem sleb128Loop_spec (l : List Nat) :
    ∀ result shift, IsSlebEncoding l → shift + 7 * l.length ≤ 70 →
    result < 2 ^ shift → shift ≤ 63 →
    sleb128Loop l result shift =
      some ((result + slebRaw l * 2 ^ shift) % 2 ^ 64, shift + 7 * l.length,
        l.getLastD 0) := by
  induction l with
  | nil =>
    intro _ _ henc _ _ _
    exact absurd henc (by unfold IsSlebEncoding; exact not_false)
  | cons b rest ih =>
    intro result shift henc hlen hres hshift
    have hg : b &&& 0x7f < 2 ^ 7 := Nat.lt_succ_of_le Nat.and_le_right
    cases rest with
    | nil =>
      obtain ⟨hb, hstop⟩ : b < 256 ∧ b &&& 0x80 = 0 := henc
      rw [sleb128Loop_cons_stop b [] result shift hstop]
      rw [or_shift_mod result (b &&& 0x7f) shift hres hshift]
      have hraw : slebRaw [b] = b &&& 0x7f := by
        simp [slebRaw]
      rw [hraw]
      simp [List.getLastD]
    | cons c rest2 =>
      obtain ⟨hb, hcont, henc2⟩ :
          b < 256 ∧ b &&& 0x80 ≠ 0 ∧ IsSlebEncoding (c :: rest2) := henc
      have hlen2 : (b :: c :: rest2).length = 2 + rest2.length := by
        simp
        omega
      have hshift7 : shift + 7 ≤ 63 := by
        rw [hlen2] at hlen
        omega
      have hmod : (b &&& 0x7f) <<< shift % 2 ^ 64 = (b &&& 0x7f) * 2 ^ shift := by
        rw [Nat.shiftLeft_eq]
        apply Nat.mod_eq_of_lt
        calc (b &&& 0x7f) * 2 ^ shift < 2 ^ 7 * 2 ^ shift :=
              (Nat.mul_lt_mul_right (Nat.two_pow_pos shift)).mpr hg
          _ = 2 ^ (shift + 7) := by rw [← Nat.pow_add, Nat.add_comm]
          _ ≤ 2 ^ 64 := Nat.pow_le_pow_right (by norm_num) (by omega)
      have hsum : result ||| (b &&& 0x7f) <<< shift % 2 ^ 64 =
          2 ^ shift * (b &&& 0x7f) + result := by
        rw [hmod, Nat.mul_comm]
        exact lor_two_pow_mul shift result (b &&& 0x7f) hres
      have hres2 : 2 ^ shift * (b &&& 0x7f) + result < 2 ^ (shift + 7) := by
        calc 2 ^ shift * (b &&& 0x7f) + result
            < 2 ^ shift * (b &&& 0x7f) + 2 ^ shift := by omega
          _ = 2 ^ shift * ((b &&& 0x7f) + 1) := by ring
          _ ≤ 2 ^ shift * 2 ^ 7 := Nat.mul_le_mul_left _ (by omega)
          _ = 2 ^ (shift + 7) := by rw [← Nat.pow_add]
      have ihap := ih (2 ^ shift * (b &&& 0x7f) + result) (shift + 7) henc2
        (by simp only [List.length_cons] at hlen ⊢; omega) hres2 hshift7
      rw [sleb128Loop_cons_cont b (c :: rest2) result shift hcont, hsum, ihap]
      have hval : 2 ^ shift * (b &&& 0x7f) + result +
          slebRaw (c :: rest2) * 2 ^ (shift + 7) =
          result + slebRaw (b :: c :: rest2) * 2 ^ shift := by
        rw [show slebRaw (b :: c :: rest2) =
            (b &&& 0x7f) + 2 ^ 7 * slebRaw (c :: rest2) from rfl,
          show (2 : Nat) ^ (shift + 7) = 2 ^ shift * 2 ^ 7 from by
            rw [← Nat.pow_add]]
        ring
      have hlast : (c :: rest2).getLastD 0 = (b :: c :: rest2).getLastD 0 := by
        rw [List.getLastD_eq_getLast?, List.getLastD_eq_getLast?,
          List.getLast?_cons_cons]
      have hlen3 : shift + 7 + 7 * (c :: rest2).length =
          shift + 7 * (b :: c :: rest2).length := by
        simp only [List.length_cons]
        omega
      rw [hval, hlast, hlen3]

/-- Truncated-subtraction distribution used below. -/
theorem sub_one_mul_eq (A B : Nat) (hA : 1 ≤ A) : (A - 1) * B = A * B - B := by
  conv_rhs => rw [show A = A - 1 + 1 from by omega]
  rw [Nat.succ_mul]
  omega

/-- Truncated-subtraction distribution used below. -/
theorem mul_sub_one_eq (A B : Nat) (hB : 1 ≤ B) : A * (B - 1) = A * B - A := by
  conv_rhs => rw [show B = B - 1 + 1 from by omega]
  rw [Nat.mul_succ]
  omega

/-- The truncated all-ones shift used for sign extension is
`2 ^ 64 - 2 ^ s`. -/
theorem all_ones_shift_mod (s : Nat) (hs : s ≤ 63) :
    ((2 ^ 64 - 1) <<< s) % 2 ^ 64 = 2 ^ 64 - 2 ^ s := by
  rw [Nat.shiftLeft_eq]
  have hsplit : (2 : Nat) ^ 64 = 2 ^ (64 - s) * 2 ^ s := by
    rw [← Nat.pow_add]
    congr 1
    omega
  have hA : (1 : Nat) ≤ 2 ^ (64 - s) := Nat.one_le_two_pow
  have hB : (1 : Nat) ≤ 2 ^ s := Nat.one_le_two_pow
  have hle : 2 ^ (64 - s) ≤ 2 ^ (64 - s) * 2 ^ s :=
    Nat.le_mul_of_pos_right _ (by omega)
  rw [hsplit, Nat.mul_mod_mul_right]
  have h1 : (2 ^ (64 - s) * 2 ^ s - 1) % 2 ^ (64 - s) = 2 ^ (64 - s) - 1 := by
    have h2 : 2 ^ (64 - s) * 2 ^ s - 1 =
        (2 ^ (64 - s) - 1) + (2 ^ s - 1) * 2 ^ (64 - s) := by
      rw [sub_one_mul_eq (2 ^ s) (2 ^ (64 - s)) hB,
        Nat.mul_comm (2 ^ s) (2 ^ (64 - s))]
      omega
    rw [h2, Nat.add_mul_mod_self_right, Nat.mod_eq_of_lt (by omega)]
  rw [h1, sub_one_mul_eq _ _ hA]

/-- C8 counterexample: the 10-byte signed LEB128 encoding of `2 ^ 63`
(nine continuation bytes `0x80` then `0x01`) is a valid encoding whose
mathematical value does not fit in `int64_t`; the decoder returns the
wrapped value `-2 ^ 63`, not the mathematical value. -/
theorem C8_counterexample :
    IsSlebEncoding [0x80, 0x80, 0x80, 0x80, 0x80, 0x80, 0x80, 0x80, 0x80, 0x01] ∧
    slebValue [0x80, 0x80, 0x80, 0x80, 0x80, 0x80, 0x80, 0x80, 0x80, 0x01] =
      2 ^ 63 ∧
    sleb128 [0x80, 0x80, 0x80, 0x80, 0x80, 0x80, 0x80, 0x80, 0x80, 0x01] =
      some (-(2 ^ 63)) ∧
    sleb128 [0x80, 0x80, 0x80, 0x80, 0x80, 0x80, 0x80, 0x80, 0x80, 0x01] ≠
      some (slebValue [0x80, 0x80, 0x80, 0x80, 0x80, 0x80, 0x80, 0x80, 0x80, 0x01]) := by
  refine ⟨by decide, by decide, by decide, by decide⟩

/-- C8 (amended): for every valid signed-LEB128 byte sequence of at most
10 bytes (so no C++ shift reaches the undefined range ≥ 64) whose
mathematical value lies in the signed 64-bit range, `sleb128` accumulates
the low 7 bits of each byte little-endian, sign-extends exactly when the
stop byte's 0x40 bit is set and the accumulated shift is below 64, and
returns exactly the mathematical signed LEB128 value. -/
theorem C8_sleb128 (l : List Nat) (henc : IsSlebEncoding l)
    (hlen : l.length ≤ 10) (hlo : -(2 ^ 63) ≤ slebValue l)
    (hhi : slebValue l < 2 ^ 63) :
    sleb128 l = some (slebValue l) := by
  have hub := slebRaw_lt l
  have hloop := sleb128Loop_spec l 0 0 henc (by omega) (by norm_num) (by omega)
  simp only [Nat.zero_add, Nat.pow_zero, Nat.mul_one] at hloop
  simp only [sleb128, hloop]
  rcases Nat.lt_or_ge (7 * l.length) 64 with hcase | hcase
  · -- at most 9 bytes: the shift never exhausts the 64-bit width
    have hraw63 : slebRaw l < 2 ^ 63 :=
      lt_of_lt_of_le hub (Nat.pow_le_pow_right (by norm_num) (by omega))
    have hrawmod : slebRaw l % 2 ^ 64 = slebRaw l :=
      Nat.mod_eq_of_lt (lt_trans hraw63 (by norm_num))
    by_cases hsig : l.getLastD 0 &&& 0x40 ≠ 0
    · rw [if_pos ⟨hcase, hsig⟩, hrawmod,
        all_ones_shift_mod (7 * l.length) (by omega)]
      refine congrArg some ?_
      have hsplit : (2 : Nat) ^ 64 =
          2 ^ (7 * l.length) * 2 ^ (64 - 7 * l.length) := by
        rw [← Nat.pow_add]
        congr 1
        omega
      have hmask : 2 ^ 64 - 2 ^ (7 * l.length) =
          2 ^ (7 * l.length) * (2 ^ (64 - 7 * l.length) - 1) := by
        rw [mul_sub_one_eq _ _ Nat.one_le_two_pow, ← hsplit]
      rw [hmask, lor_two_pow_mul (7 * l.length) (slebRaw l) _ hub, ← hmask]
      have h2s63 : (2 : Nat) ^ (7 * l.length) ≤ 2 ^ 63 :=
        Nat.pow_le_pow_right (by norm_num) (by omega)
      rw [toInt64, slebValue, if_pos hsig, if_neg (by omega)]
      have h2s64 : (2 : Nat) ^ (7 * l.length) ≤ 2 ^ 64 :=
        le_trans h2s63 (by norm_num)
      have hAB : ((2 ^ (7 * l.length) : Nat) : Int) = (2 : Int) ^ (7 * l.length) := by
        push_cast
        ring
      rw [← hAB]
      omega
    · rw [if_neg (fun h => hsig h.2), hrawmod]
      refine congrArg some ?_
      rw [toInt64, if_pos hraw63, slebValue, if_neg hsig]
  · -- exactly 10 bytes: no sign extension is applied
    have hn : l.length = 10 := by omega
    rw [if_neg (fun h => absurd h.1 (by omega))]
    refine congrArg some ?_
    have hub70 : slebRaw l < 2 ^ 70 := by
      rw [hn] at hub
      exact hub
    rw [slebValue, hn] at hlo hhi ⊢
    rw [toInt64]
    by_cases hsig : l.getLastD 0 &&& 0x40 ≠ 0
    · rw [if_pos hsig] at hlo hhi ⊢
      split <;> omega
    · rw [if_neg hsig] at hlo hhi ⊢
      split <;> omega

/-- C8 witness: the 3-byte encoding `[0xC7, 0x9F, 0x7F]` of -12345 is
valid, in range, and decodes to its mathematical value. -/
theorem C8_witness :
    IsSlebEncoding [0xC7, 0x9F, 0x7F] ∧
    [0xC7, 0x9F, 0x7F].length ≤ 10 ∧
    -(2 ^ 63) ≤ slebValue [0xC7, 0x9F, 0x7F] ∧
    slebValue [0xC7, 0x9F, 0x7F] < 2 ^ 63 ∧
    sleb128 [0xC7, 0x9F, 0x7F] = some (slebValue [0xC7, 0x9F, 0x7F]) := by
  exact ⟨by decide, by decide, by decide, by decide,
    C8_sleb128 [0xC7, 0x9F, 0x7F] (by decide) (by decide) (by decide) (by decide)⟩

/-! ## C4 — `ReadMemoryWithoutTraps` -/

/-- The patch fold of `ReadMemoryWithoutTraps` preserves the buffer
length. -/
theorem fold_patch_length (a : Nat) :
    ∀ (L : List BreakpointSite) (memory : List Nat),
    (L.foldl (fun memory site =>
      if !site.is_enabled || site.is_hardware then memory
      else memory.set (site.address - a) site.saved_data) memory).length =
    memory.length := by
  intro L
  induction L with
  | nil => intro memory; rfl
  | cons s L ih =>
    intro memory
    rw [List.foldl_cons, ih]
    by_cases hskip : !s.is_enabled || s.is_hardware
    · rw [if_pos hskip]
    · rw [if_neg hskip, List.length_set]

/-- Index-wise behaviour of the patch fold: with pairwise-distinct site
addresses, index `i` holds the saved byte of the (unique) enabled
software site at address `a + i`, if any, and the original byte
otherwise. -/
theorem fold_patch_getElem (a : Nat) :
    ∀ (L : List BreakpointSite) (memory : List Nat),
    (∀ s ∈ L, a ≤ s.address ∧ s.address < a + memory.length) →
    L.Pairwise (fun s t => s.address ≠ t.address) →
    ∀ i, i < memory.length →
    (L.foldl (fun memory site =>
      if !site.is_enabled || site.is_hardware then memory
      else memory.set (site.address - a) site.saved_data) memory)[i]? =
    (match L.find? (fun s => (s.is_enabled && !s.is_hardware) &&
        (s.address == a + i)) with
     | some s => some s.saved_data
     | none => memory[i]?) := by
  intro L
  induction L with
  | nil =>
    intro memory _ _ i hi
    rfl
  | cons s L ih =>
    intro memory hbounds huniq i hi
    obtain ⟨hsa, hsb⟩ := hbounds s (List.mem_cons_self s L)
    have hothers := (List.pairwise_cons.mp huniq).1
    have huniq2 := (List.pairwise_cons.mp huniq).2
    rw [List.foldl_cons]
    by_cases hskip : (!s.is_enabled || s.is_hardware) = true
    · have hp : ((s.is_enabled && !s.is_hardware) && (s.address == a + i)) = false := by
        cases he : s.is_enabled <;> cases hh : s.is_hardware <;> simp_all
      rw [if_pos hskip]
      simp only [List.find?_cons, hp]
      exact ih memory (fun t ht => hbounds t (List.mem_cons_of_mem s ht))
        huniq2 i hi
    · have he : s.is_enabled = true ∧ s.is_hardware = false := by
        cases he : s.is_enabled <;> cases hh : s.is_hardware <;> simp_all
      rw [if_neg hskip]
      have hlenset : (memory.set (s.address - a) s.saved_data).length =
          memory.length := List.length_set memory _ _
      have hbounds2 : ∀ t ∈ L, a ≤ t.address ∧
          t.address < a + (memory.set (s.address - a) s.saved_data).length := by
        intro t ht
        rw [hlenset]
        exact hbounds t (List.mem_cons_of_mem s ht)
      have hih := ih (memory.set (s.address - a) s.saved_data) hbounds2
        huniq2 i (by omega)
      by_cases haddr : s.address = a + i
      · have hp : ((s.is_enabled && !s.is_hardware) && (s.address == a + i)) = true := by
          simp [he.1, he.2, haddr]
        simp only [List.find?_cons, hp]
        have hnone : L.find? (fun t => (t.is_enabled && !t.is_hardware) &&
            (t.address == a + i)) = none := by
          rw [List.find?_eq_none]
          intro t ht
          have hne : s.address ≠ t.address := hothers t ht
          simp [haddr ▸ hne.symm]
        rw [hih, hnone]
        have hidx : s.address - a = i := by omega
        rw [hidx, List.getElem?_set]
        simp [hi]
      · have hp : ((s.is_enabled && !s.is_hardware) && (s.address == a + i)) = false := by
          simp [haddr]
        simp only [List.find?_cons, hp]
        rw [hih]
        have hidx : s.address - a ≠ i := by omega
        rw [List.getElem?_set_ne hidx]

/-- Memory effect of disabling a list of software sites with
pairwise-distinct addresses: the byte at a site's address becomes its
saved byte; all other addresses are untouched. -/
theorem disableAll_apply (x : Nat) :
    ∀ (L : List BreakpointSite) (mem : Nat → Nat),
    L.Pairwise (fun s t => s.address ≠ t.address) →
    DisableAllMemory mem L x =
      (match L.find? (fun s => s.address == x) with
       | some s => s.saved_data
       | none => mem x) := by
  intro L
  induction L with
  | nil => intro mem _; rfl
  | cons s L ih =>
    intro mem huniq
    have hothers := (List.pairwise_cons.mp huniq).1
    have huniq2 := (List.pairwise_cons.mp huniq).2
    rw [DisableAllMemory, List.foldl_cons]
    by_cases haddr : s.address = x
    · have hp : (s.address == x) = true := by simp [haddr]
      simp only [List.find?_cons, hp]
      have hnone : L.find? (fun t => t.address == x) = none := by
        rw [List.find?_eq_none]
        intro t ht
        have hne : s.address ≠ t.address := hothers t ht
        simp [haddr ▸ hne.symm]
      have := ih (DisableSiteMemory mem s) huniq2
      rw [DisableAllMemory] at this
      rw [this, hnone, DisableSiteMemory]
      simp [haddr]
    · have hp : (s.address == x) = false := by simp [haddr]
      simp only [List.find?_cons, hp]
      have := ih (DisableSiteMemory mem s) huniq2
      rw [DisableAllMemory] at this
      rw [this]
      have hd : DisableSiteMemory mem s x = mem x := by
        rw [DisableSiteMemory]
        have hxs : ¬x = s.address := fun h => haddr (Eq.symm h)
        simp [hxs]
      rcases hf : L.find? (fun t => t.address == x) with _ | t
      · simp [hf, hd]
      · simp [hf]

/-- C4 (amended): provided the read does not wrap the 64-bit address
space (`a + n < 2 ^ 64`) and site addresses are distinct (the collection
invariant), `ReadMemoryWithoutTraps(a, n)` returns the bytes of
`ReadMemory(a, n)` with, for each enabled non-hardware site whose address
lies in `[a, a + n)`, the byte at that site's offset replaced by the
site's saved byte — equivalently, exactly what `ReadMemory` would return
on the memory obtained by disabling all those software sites; hardware
and disabled sites cause no replacement. -/
theorem C4_read_memory_without_traps (mem : Nat → Nat)
    (sites : List BreakpointSite) (a n : Nat)
    (hwrap : a + n < 2 ^ 64)
    (huniq : sites.Pairwise (fun s t => s.address ≠ t.address)) :
    (∀ i, i < n →
      (ReadMemoryWithoutTraps mem sites a n)[i]? =
        (match sites.find? (fun s => (s.is_enabled && !s.is_hardware) &&
            (s.address == a + i)) with
         | some s => some s.saved_data
         | none => some (mem (a + i)))) ∧
    ReadMemoryWithoutTraps mem sites a n =
      ReadMemory (DisableAllMemory mem
        ((GetInRegion sites a ((a + n) % 2 ^ 64)).filter
          (fun s => s.is_enabled && !s.is_hardware))) a n := by
  have hmodan : (a + n) % 2 ^ 64 = a + n := Nat.mod_eq_of_lt hwrap
  have hlenmem : (ReadMemory mem a n).length = n := by
    rw [ReadMemory, List.length_map, List.length_range]
  have hLuniq : (GetInRegion sites a (a + n)).Pairwise
      (fun s t => s.address ≠ t.address) := List.Pairwise.filter _ huniq
  have hLbounds : ∀ s ∈ GetInRegion sites a (a + n),
      a ≤ s.address ∧ s.address < a + (ReadMemory mem a n).length := by
    intro s hs
    rw [hlenmem]
    have hr := List.of_mem_filter hs
    rw [BreakpointSite.IsInRange] at hr
    simp only [Bool.and_eq_true, decide_eq_true_eq] at hr
    omega
  have key : ∀ i, i < n → (ReadMemoryWithoutTraps mem sites a n)[i]? =
      (match (GetInRegion sites a (a + n)).find?
          (fun s => (s.is_enabled && !s.is_hardware) && (s.address == a + i)) with
       | some s => some s.saved_data
       | none => (ReadMemory mem a n)[i]?) := by
    intro i hi
    simp only [ReadMemoryWithoutTraps, hmodan]
    exact fold_patch_getElem a (GetInRegion sites a (a + n))
      (ReadMemory mem a n) hLbounds hLuniq i (by omega)
  have hmemi : ∀ i, i < n → (ReadMemory mem a n)[i]? = some (mem (a + i)) := by
    intro i hi
    rw [ReadMemory, List.getElem?_map, List.getElem?_range hi]
    have hmod : (a + i) % 2 ^ 64 = a + i := Nat.mod_eq_of_lt (by omega)
    simp only [Option.map_some']
    rw [hmod]
  have hbridge : ∀ i, i < n →
      (GetInRegion sites a (a + n)).find?
          (fun s => (s.is_enabled && !s.is_hardware) && (s.address == a + i)) =
        sites.find? (fun s => (s.is_enabled && !s.is_hardware) &&
          (s.address == a + i)) := by
    intro i hi
    rw [GetInRegion, List.find?_filter]
    congr 1
    funext s
    by_cases hp : ((s.is_enabled && !s.is_hardware) && (s.address == a + i)) = true
    · have haddr : s.address = a + i := by
        simp only [Bool.and_eq_true, beq_iff_eq] at hp
        exact hp.2
      have hq : s.IsInRange a (a + n) = true := by
        rw [BreakpointSite.IsInRange]
        simp only [Bool.and_eq_true, decide_eq_true_eq]
        omega
      simp [hp, hq]
    · simp [hp]
  constructor
  · intro i hi
    rw [key i hi, hbridge i hi]
    rcases hf : sites.find? (fun s => (s.is_enabled && !s.is_hardware) &&
        (s.address == a + i)) with _ | s
    · simp only [hf]
      exact hmemi i hi
    · simp only [hf]
  · apply List.ext_getElem?
    intro i
    by_cases hi : i < n
    · rw [key i hi]
      have hRlen : (ReadMemory (DisableAllMemory mem
          ((GetInRegion sites a ((a + n) % 2 ^ 64)).filter
            (fun s => s.is_enabled && !s.is_hardware))) a n).length = n := by
        rw [ReadMemory, List.length_map, List.length_range]
      have hR : (ReadMemory (DisableAllMemory mem
          ((GetInRegion sites a ((a + n) % 2 ^ 64)).filter
            (fun s => s.is_enabled && !s.is_hardware))) a n)[i]? =
          some (DisableAllMemory mem
            ((GetInRegion sites a (a + n)).filter
              (fun s => s.is_enabled && !s.is_hardware)) (a + i)) := by
        rw [hmodan, ReadMemory, List.getElem?_map, List.getElem?_range hi]
        have : (a + i) % 2 ^ 64 = a + i := Nat.mod_eq_of_lt (by omega)
        simp only [Option.map_some']
        rw [this]
      rw [hR, disableAll_apply (a + i) _ mem (List.Pairwise.filter _ hLuniq)]
      rw [List.find?_filter]
      have hfe : (fun s : BreakpointSite =>
          decide ((s.is_enabled && !s.is_hardware) = true ∧ (s.address == a + i) = true)) =
          (fun s : BreakpointSite =>
            (s.is_enabled && !s.is_hardware) && (s.address == a + i)) := by
        funext s
        simp only [Bool.and_eq_true, decide_eq_true_eq, Bool.decide_and]
        by_cases h : s.address = a + i <;> simp [h]
      rw [hfe]
      rcases hf : (GetInRegion sites a (a + n)).find?
          (fun s => (s.is_enabled && !s.is_hardware) && (s.address == a + i)) with _ | s
      · simp only [hf]
        exact hmemi i hi
      · simp only [hf]
    · rw [List.getElem?_eq_none, List.getElem?_eq_none]
      · rw [ReadMemory, List.length_map, List.length_range]
        omega
      · simp only [ReadMemoryWithoutTraps, hmodan]
        rw [fold_patch_length, hlenmem]
        omega
/-- C4 counterexample: for `a = 2 ^ 64 - 1`, `n = 2`, an enabled software
site at address `2 ^ 64 - 1` (which lies in `[a, a + n)`) is *not*
patched: `GetInRegion` computes the region's upper bound as
`(a + n) mod 2 ^ 64 = 1` and the comparison `high > address` fails, so
the raw bytes come back unreplaced, against the claim's "for every
address a, length n". -/
theorem C4_counterexample :
    ReadMemoryWithoutTraps (fun _ => 0xCC)
      [⟨1, 2 ^ 64 - 1, true, 0x90, false, false⟩] (2 ^ 64 - 1) 2 =
      [0xCC, 0xCC] ∧
    (⟨1, 2 ^ 64 - 1, true, 0x90, false, false⟩ : BreakpointSite).is_enabled = true ∧
    (⟨1, 2 ^ 64 - 1, true, 0x90, false, false⟩ : BreakpointSite).is_hardware = false ∧
    (2 ^ 64 - 1 : Nat) = (2 ^ 64 - 1) + 0 ∧
    (0 : Nat) < 2 ∧
    [0xCC, 0xCC][0]? ≠
      some ((⟨1, 2 ^ 64 - 1, true, 0x90, false, false⟩ : BreakpointSite).saved_data) := by
  refine ⟨by decide, by decide, by decide, by decide, by decide, by decide⟩

/-- C4 witness: a four-byte read over one enabled software site, one
disabled site and one hardware site; only the enabled software byte is
replaced. -/
theorem C4_witness :
    0x1000 + 4 < 2 ^ 64 ∧
    ([⟨1, 0x1002, true, 0x90, false, false⟩,
      ⟨2, 0x1003, false, 0x91, false, false⟩,
      ⟨3, 0x1001, true, 0x92, true, false⟩] : List BreakpointSite).Pairwise
      (fun s t => s.address ≠ t.address) ∧
    ((∀ i, i < 4 →
      (ReadMemoryWithoutTraps (fun x => x % 251)
        [⟨1, 0x1002, true, 0x90, false, false⟩,
         ⟨2, 0x1003, false, 0x91, false, false⟩,
         ⟨3, 0x1001, true, 0x92, true, false⟩] 0x1000 4)[i]? =
        (match ([⟨1, 0x1002, true, 0x90, false, false⟩,
            ⟨2, 0x1003, false, 0x91, false, false⟩,
            ⟨3, 0x1001, true, 0x92, true, false⟩] : List BreakpointSite).find?
            (fun s => (s.is_enabled && !s.is_hardware) &&
              (s.address == 0x1000 + i)) with
         | some s => some s.saved_data
         | none => some ((fun x => x % 251) (0x1000 + i)))) ∧
    ReadMemoryWithoutTraps (fun x => x % 251)
        [⟨1, 0x1002, true, 0x90, false, false⟩,
         ⟨2, 0x1003, false, 0x91, false, false⟩,
         ⟨3, 0x1001, true, 0x92, true, false⟩] 0x1000 4 =
      ReadMemory (DisableAllMemory (fun x => x % 251)
        ((GetInRegion [⟨1, 0x1002, true, 0x90, false, false⟩,
            ⟨2, 0x1003, false, 0x91, false, false⟩,
            ⟨3, 0x1001, true, 0x92, true, false⟩] 0x1000 ((0x1000 + 4) % 2 ^ 64)).filter
          (fun s => s.is_enabled && !s.is_hardware))) 0x1000 4) := by
  refine ⟨by decide, by decide,
    C4_read_memory_without_traps (fun x => x % 251) _ 0x1000 4 (by decide) (by decide)⟩

/-! ## C3 — `Watchpoint::UpdateData` (spec-modelled) -/

/-- C3: after `UpdateData`, `previous_data` holds the value `data` held
before the call, and `data` holds the `size` bytes just read from the
inferior at the watchpoint's address (assembled little-endian, as the
uint64 member is); address and size are untouched. `UpdateData` itself is
modelled from the spec, its body being absent from the sources. -/
theorem C3_update_data (mem : Nat → Nat) (w : Watchpoint) :
    (UpdateData mem w).previous_data = w.data ∧
    (UpdateData mem w).data = FromLeBytes (ReadMemory mem w.address w.size) ∧
    (UpdateData mem w).address = w.address ∧
    (UpdateData mem w).size = w.size := by
  exact ⟨rfl, rfl, rfl, rfl⟩

/-! ## C9 — `FileAddress::ToVirtualAddress` ignores its `obj` argument -/

/-- C9: `ToVirtualAddress` takes both the section-containment check and
the load bias from the ELF the `FileAddress` is bound to, so its result
is the same for any `obj` argument; `VirtualAddress::ToFileAddress`, by
contrast, genuinely depends on its `obj` argument. -/
theorem C9_to_virtual_ignores_obj :
    (∀ (fa : FileAddress) (obj1 obj2 : Elf),
      ToVirtualAddress fa obj1 = ToVirtualAddress fa obj2) ∧
    (∃ (va : Nat) (obj1 obj2 : Elf),
      ToFileAddress va obj1 ≠ ToFileAddress va obj2) := by
  constructor
  · intro fa o1 o2
    rfl
  · exact ⟨0x1005, ⟨0, [(0x1000, 0x10)], 0⟩, ⟨1, [], 0⟩, by decide⟩

/-! ## C10 — `StopReason::StopReason(int)` -/

/-- C10: the constructor assigns `reason`/`info` exactly in the three
`WIFEXITED` / `WIFSIGNALED` / `WIFSTOPPED` branches; for every other wait
status both members stay unassigned (modelled as `none`; reading them in
C++ is reading an indeterminate value). A continued status (`0xffff`)
satisfies none of the three predicates and leaves both unassigned. -/
theorem C10_stop_reason_ctor :
    (∀ s : Nat, WIFEXITED s →
      StopReasonCtor s = (some .Exited, some (WEXITSTATUS s))) ∧
    (∀ s : Nat, ¬WIFEXITED s → WIFSIGNALED s →
      StopReasonCtor s = (some .Terminated, some (WTERMSIG s))) ∧
    (∀ s : Nat, ¬WIFEXITED s → ¬WIFSIGNALED s → WIFSTOPPED s →
      StopReasonCtor s = (some .Stopped, some (WSTOPSIG s))) ∧
    (∀ s : Nat, ((StopReasonCtor s).1 = none ∧ (StopReasonCtor s).2 = none) ↔
      ¬(WIFEXITED s ∨ WIFSIGNALED s ∨ WIFSTOPPED s)) ∧
    StopReasonCtor 0xffff = (none, none) ∧
    ¬(WIFEXITED 0xffff ∨ WIFSIGNALED 0xffff ∨ WIFSTOPPED 0xffff) := by
  refine ⟨?_, ?_, ?_, ?_, by decide, by decide⟩
  · intro s h1
    rw [StopReasonCtor, if_pos h1]
  · intro s h1 h2
    rw [StopReasonCtor, if_neg h1, if_pos h2]
  · intro s h1 h2 h3
    rw [StopReasonCtor, if_neg h1, if_neg h2, if_pos h3]
  · intro s
    rw [StopReasonCtor]
    split_ifs with h1 h2 h3
    · simp [h1]
    · simp [h2]
    · simp [h3]
    · simp [h1, h2, h3]

/-- C10 witness: concrete statuses — exit code 9 (`0x0900`), killed by
signal 11 (`0x008b`), stopped by signal 5 (`0x057f`), and the continued
status `0xffff` which assigns nothing. -/
theorem C10_witness :
    WIFEXITED 0x0900 ∧
    StopReasonCtor 0x0900 = (some .Exited, some 9) ∧
    ¬WIFEXITED 0x008b ∧ WIFSIGNALED 0x008b ∧
    StopReasonCtor 0x008b = (some .Terminated, some 11) ∧
    ¬WIFEXITED 0x057f ∧ ¬WIFSIGNALED 0x057f ∧ WIFSTOPPED 0x057f ∧
    StopReasonCtor 0x057f = (some .Stopped, some 5) ∧
    ((StopReasonCtor 0xffff).1 = none ∧ (StopReasonCtor 0xffff).2 = none) := by
  refine ⟨by decide, ?_, by decide, by decide, ?_, by decide, by decide, by decide,
    ?_, ?_⟩
  · exact C10_stop_reason_ctor.1 0x0900 (by decide)
  · exact C10_stop_reason_ctor.2.1 0x008b (by decide) (by decide)
  · exact C10_stop_reason_ctor.2.2.1 0x057f (by decide) (by decide) (by decide)
  · exact (C10_stop_reason_ctor.2.2.2.1 0xffff).mpr (by decide)

/-! ## C7 — watchpoint alignment -/

/-- C7 counterexample: `CreateWatchpoint` accepts address 1 with size 3 —
the alignment check `1 &&& (3 - 1) = 1 &&& 2 = 0` passes — so the
collection then holds a watchpoint with `address mod size = 1 ≠ 0`: the
claimed invariant `address mod size == 0` does not follow for
non-power-of-two sizes (nothing validates the size before insertion;
`Enable` would reject size 3 only later). -/
theorem C7_counterexample :
    CreateWatchpoint [] 1 .write 3 =
      .ok [{ address := 1, mode := .write, size := 3 }] ∧
    (1 : Nat) &&& ((2 ^ 64 + 3 - 1) % 2 ^ 64) = 0 ∧
    (1 : Nat) % 3 ≠ 0 := by
  refine ⟨rfl, by decide, by decide⟩

/-- C7 (amended): watchpoint construction fails with the alignment error
exactly when `address & (size - 1) ≠ 0` (for sizes in the `size_t` range;
size 0 wraps the mask to `2 ^ 64 - 1`, rejecting every nonzero address),
and `CreateWatchpoint` fails when a watchpoint already exists at the
address; consequently every watchpoint held in a process's collection
satisfies `address & (size - 1) = 0`, which for the power-of-two sizes
the debugger supports (1, 2, 4, 8) is exactly `address mod size = 0`; a
non-power-of-two size (e.g. 3) can pass the check unaligned. -/
theorem C7_watchpoint_alignment :
    (∀ address mode size, 1 ≤ size → size < 2 ^ 64 →
      ((WatchpointCtor address mode size =
        .error "Watchpoints must be aligned to their size") ↔
      address &&& (size - 1) ≠ 0)) ∧
    (∀ address mode, address ≠ 0 → address < 2 ^ 64 →
      WatchpointCtor address mode 0 =
        .error "Watchpoints must be aligned to their size") ∧
    (∀ (wps : List Watchpoint) address mode size,
      wps.any (fun w => w.address = address) = true →
      CreateWatchpoint wps address mode size =
        .error "Watchpoint already created at address") ∧
    (∀ (wps wps' : List Watchpoint) address mode size,
      CreateWatchpoint wps address mode size = .ok wps' →
      (∀ w ∈ wps, w.address &&& ((2 ^ 64 + w.size - 1) % 2 ^ 64) = 0) →
      ∀ w ∈ wps', w.address &&& ((2 ^ 64 + w.size - 1) % 2 ^ 64) = 0) ∧
    (∀ address size j, size = 2 ^ j → j ≤ 64 →
      address &&& ((2 ^ 64 + size - 1) % 2 ^ 64) = 0 →
      address % size = 0) := by
  refine ⟨?_, ?_, ?_, ?_, ?_⟩
  · intro address mode size h1 h2
    have hm : (2 ^ 64 + size - 1) % 2 ^ 64 = size - 1 := by omega
    rw [WatchpointCtor, hm]
    by_cases h : address &&& (size - 1) ≠ 0
    · rw [if_pos h]
      exact ⟨fun _ => h, fun _ => rfl⟩
    · rw [if_neg h]
      constructor
      · intro he
        exact Except.noConfusion he
      · intro hc
        exact absurd hc h
  · intro address mode hne hlt
    have hc : address &&& ((2 ^ 64 + 0 - 1) % 2 ^ 64) ≠ 0 := by
      have h64 : (2 ^ 64 + 0 - 1) % 2 ^ 64 = 2 ^ 64 - 1 := by omega
      rw [h64, Nat.and_pow_two_sub_one_eq_mod, Nat.mod_eq_of_lt hlt]
      exact hne
    rw [WatchpointCtor, if_pos hc]
  · intro wps address mode size h
    rw [CreateWatchpoint, if_pos h]
  · intro wps wps' address mode size hok hall w hw
    rw [CreateWatchpoint] at hok
    by_cases hc : wps.any (fun w => w.address = address) = true
    · rw [if_pos hc] at hok
      exact absurd hok (by simp)
    · rw [if_neg hc] at hok
      rw [WatchpointCtor] at hok
      by_cases ha : address &&& ((2 ^ 64 + size - 1) % 2 ^ 64) ≠ 0
      · rw [if_pos ha] at hok
        exact absurd hok (by simp)
      · rw [if_neg ha] at hok
        simp only [Except.ok.injEq] at hok
        subst hok
        rcases List.mem_append.mp hw with hmem | hmem
        · exact hall w hmem
        · have hw1 : w = { address := address, mode := mode, size := size } := by
            simpa using hmem
          subst hw1
          simpa using ha
  · intro address size j hj hjle hand
    subst hj
    have h1 : (1 : Nat) ≤ 2 ^ j := Nat.one_le_two_pow
    have h2 : (2 : Nat) ^ j ≤ 2 ^ 64 := Nat.pow_le_pow_right (by norm_num) hjle
    have hm : (2 ^ 64 + 2 ^ j - 1) % 2 ^ 64 = 2 ^ j - 1 := by omega
    rw [hm, Nat.and_pow_two_sub_one_eq_mod] at hand
    exact hand

/-- C7 witness: an unaligned size-8 watchpoint (address 4) is rejected,
as is any nonzero address with size 0 (the wrapped mask); a duplicate
address is rejected; an aligned size-8 watchpoint at address 16 enters
the collection satisfying the mask invariant, which for the power of two
8 gives `16 mod 8 = 0`. -/
theorem C7_witness :
    (WatchpointCtor 4 .write 8 =
      .error "Watchpoints must be aligned to their size") ∧
    (WatchpointCtor 1 .write 0 =
      .error "Watchpoints must be aligned to their size") ∧
    CreateWatchpoint [{ address := 16, mode := .write, size := 8 }] 16
      .read_write 4 = .error "Watchpoint already created at address" ∧
    (∀ w ∈ [{ address := 16, mode := StoppointMode.write, size := 8 }],
      Watchpoint.address w &&& ((2 ^ 64 + Watchpoint.size w - 1) % 2 ^ 64) = 0) ∧
    ((16 : Nat) % 8 = 0) := by
  refine ⟨?_, ?_, ?_, ?_, ?_⟩
  · exact (C7_watchpoint_alignment.1 4 .write 8 (by omega) (by decide)).mpr
      (by decide)
  · exact C7_watchpoint_alignment.2.1 1 .write (by decide) (by decide)
  · exact C7_watchpoint_alignment.2.2.1 _ 16 .read_write 4 (by decide)
  · exact C7_watchpoint_alignment.2.2.2.1 [] _ 16 .write 8 rfl
      (by intro w hw; cases hw)
  · exact C7_watchpoint_alignment.2.2.2.2 16 8 3 rfl (by omega) (by decide)

/-- C6 (amended): provided no section's bias-shifted bounds wrap the
64-bit address space, file-to-virtual conversion adds the ELF's load bias
and virtual-to-file conversion subtracts it; each conversion yields the
null (default) address when the input lies outside every section of the
target ELF; and for addresses inside some section both round trips are
identities. -/
theorem C6_address_conversion (e : Elf) (fa : FileAddress) (va : Nat)
    (hnw : ∀ s ∈ e.sections, e.load_bias + s.1 + s.2 < 2 ^ 64)
    (hbound : fa.elf = some e) :
    ((∃ s ∈ e.sections, s.1 ≤ fa.addr ∧ fa.addr < s.1 + s.2) →
      ToVirtualAddress fa e = some (fa.addr + e.load_bias) ∧
      ToFileAddress (fa.addr + e.load_bias) e = fa) ∧
    ((∀ s ∈ e.sections, ¬(s.1 ≤ fa.addr ∧ fa.addr < s.1 + s.2)) →
      ToVirtualAddress fa e = some 0) ∧
    ((∃ s ∈ e.sections, e.load_bias + s.1 ≤ va ∧ va < e.load_bias + s.1 + s.2) →
      ToFileAddress va e = { elf := some e, addr := va - e.load_bias } ∧
      ToVirtualAddress (ToFileAddress va e) e = some va) ∧
    ((∀ s ∈ e.sections, ¬(e.load_bias + s.1 ≤ va ∧ va < e.load_bias + s.1 + s.2)) →
      ToFileAddress va e = { elf := none, addr := 0 }) := by
  obtain ⟨oe, faddr⟩ := fa
  simp only [FileAddress.elf] at hbound
  subst hbound
  dsimp only
  refine ⟨?_, ?_, ?_, ?_⟩
  · rintro ⟨s, hs, hs1, hs2⟩
    have hnws := hnw s hs
    have hps : (fun t : Nat × Nat =>
        t.1 ≤ faddr && (t.1 + t.2) % 2 ^ 64 > faddr) s = true := by
      have hm : (s.1 + s.2) % 2 ^ 64 = s.1 + s.2 := Nat.mod_eq_of_lt (by omega)
      simp only [hm, Bool.and_eq_true, decide_eq_true_eq]
      omega
    have hsome : (GetSectionContainingFileAddress e ⟨some e, faddr⟩).isSome := by
      rw [GetSectionContainingFileAddress, if_neg (by simp)]
      exact List.find?_isSome.mpr ⟨s, hs, hps⟩
    have hvlt : faddr + e.load_bias < 2 ^ 64 := by omega
    have hfwd : ToVirtualAddress ⟨some e, faddr⟩ e =
        some (faddr + e.load_bias) := by
      rcases hGet : GetSectionContainingFileAddress e ⟨some e, faddr⟩ with _ | sec
      · rw [hGet] at hsome
        simp at hsome
      · simp only [ToVirtualAddress, hGet, Option.isNone_some,
          Bool.false_eq_true, if_false]
        rw [Nat.mod_eq_of_lt hvlt]
    refine ⟨hfwd, ?_⟩
    have hps2 : (fun t : Nat × Nat =>
        (e.load_bias + t.1) % 2 ^ 64 ≤ faddr + e.load_bias &&
        (e.load_bias + t.1 + t.2) % 2 ^ 64 > faddr + e.load_bias) s = true := by
      have hm1 : (e.load_bias + s.1) % 2 ^ 64 = e.load_bias + s.1 :=
        Nat.mod_eq_of_lt (by omega)
      have hm2 : (e.load_bias + s.1 + s.2) % 2 ^ 64 = e.load_bias + s.1 + s.2 :=
        Nat.mod_eq_of_lt (by omega)
      simp only [hm1, hm2, Bool.and_eq_true, decide_eq_true_eq]
      omega
    have hsome2 : (GetSectionContainingVirtualAddress e (faddr + e.load_bias)).isSome := by
      rw [GetSectionContainingVirtualAddress]
      exact List.find?_isSome.mpr ⟨s, hs, hps2⟩
    rcases hGet2 : GetSectionContainingVirtualAddress e (faddr + e.load_bias) with _ | sec
    · rw [hGet2] at hsome2
      simp at hsome2
    · rw [ToFileAddress, if_neg (by rw [hGet2]; simp)]
      have hbm : e.load_bias % 2 ^ 64 = e.load_bias := Nat.mod_eq_of_lt (by omega)
      rw [hbm]
      have haddr : (2 ^ 64 + (faddr + e.load_bias) - e.load_bias) % 2 ^ 64 = faddr := by
        omega
      rw [haddr]
  · intro hout
    have hnone : GetSectionContainingFileAddress e ⟨some e, faddr⟩ = none := by
      rw [GetSectionContainingFileAddress, if_neg (by simp)]
      rw [List.find?_eq_none]
      intro t ht
      have hnwt := hnw t ht
      have hm : (t.1 + t.2) % 2 ^ 64 = t.1 + t.2 := Nat.mod_eq_of_lt (by omega)
      simp only [hm, Bool.and_eq_true, decide_eq_true_eq, not_and]
      intro h1 h2
      exact hout t ht ⟨h1, by omega⟩
    simp only [ToVirtualAddress, hnone, Option.isNone_none, if_true]
  · rintro ⟨s, hs, hs1, hs2⟩
    have hnws := hnw s hs
    have hps2 : (fun t : Nat × Nat =>
        (e.load_bias + t.1) % 2 ^ 64 ≤ va &&
        (e.load_bias + t.1 + t.2) % 2 ^ 64 > va) s = true := by
      have hm1 : (e.load_bias + s.1) % 2 ^ 64 = e.load_bias + s.1 :=
        Nat.mod_eq_of_lt (by omega)
      have hm2 : (e.load_bias + s.1 + s.2) % 2 ^ 64 = e.load_bias + s.1 + s.2 :=
        Nat.mod_eq_of_lt (by omega)
      simp only [hm1, hm2, Bool.and_eq_true, decide_eq_true_eq]
      omega
    have hsome2 : (GetSectionContainingVirtualAddress e va).isSome := by
      rw [GetSectionContainingVirtualAddress]
      exact List.find?_isSome.mpr ⟨s, hs, hps2⟩
    have hfile : ToFileAddress va e = { elf := some e, addr := va - e.load_bias } := by
      rcases hGet2 : GetSectionContainingVirtualAddress e va with _ | sec
      · rw [hGet2] at hsome2
        simp at hsome2
      · rw [ToFileAddress, if_neg (by rw [hGet2]; simp)]
        have hbm : e.load_bias % 2 ^ 64 = e.load_bias := Nat.mod_eq_of_lt (by omega)
        rw [hbm]
        have haddr : (2 ^ 64 + va - e.load_bias) % 2 ^ 64 = va - e.load_bias := by
          omega
        rw [haddr]
    refine ⟨hfile, ?_⟩
    rw [hfile]
    have hps : (fun t : Nat × Nat =>
        t.1 ≤ va - e.load_bias && (t.1 + t.2) % 2 ^ 64 > va - e.load_bias) s = true := by
      have hm : (s.1 + s.2) % 2 ^ 64 = s.1 + s.2 := Nat.mod_eq_of_lt (by omega)
      simp only [hm, Bool.and_eq_true, decide_eq_true_eq]
      omega
    have hsome : (GetSectionContainingFileAddress e ⟨some e, va - e.load_bias⟩).isSome := by
      rw [GetSectionContainingFileAddress, if_neg (by simp)]
      exact List.find?_isSome.mpr ⟨s, hs, hps⟩
    rcases hGet : GetSectionContainingFileAddress e ⟨some e, va - e.load_bias⟩ with _ | sec
    · rw [hGet] at hsome
      simp at hsome
    · simp only [ToVirtualAddress, hGet, Option.isNone_some,
        Bool.false_eq_true, if_false]
      have : va - e.load_bias + e.load_bias = va := by omega
      rw [this, Nat.mod_eq_of_lt (by omega)]
  · intro hout
    have hnone : GetSectionContainingVirtualAddress e va = none := by
      rw [GetSectionContainingVirtualAddress]
      rw [List.find?_eq_none]
      intro t ht
      have hnwt := hnw t ht
      have hm1 : (e.load_bias + t.1) % 2 ^ 64 = e.load_bias + t.1 :=
        Nat.mod_eq_of_lt (by omega)
      have hm2 : (e.load_bias + t.1 + t.2) % 2 ^ 64 = e.load_bias + t.1 + t.2 :=
        Nat.mod_eq_of_lt (by omega)
      simp only [hm1, hm2, Bool.and_eq_true, decide_eq_true_eq, not_and]
      intro h1 h2
      exact hout t ht ⟨h1, by omega⟩
    rw [ToFileAddress, if_pos (by rw [hnone]; rfl)]

/-- C6 counterexample: with a section `[10, 15)` and load bias
`2 ^ 64 - 11`, the file address 12 lies inside a mapped section, but its
virtual image wraps to 1, the bias-shifted section bound `2 ^ 64 - 1` is
not `≤ 1`, so the virtual-side containment scan fails and
`ToFileAddress(ToVirtualAddress(a))` returns the null `FileAddress`
instead of the original address: the round trip of the claim fails as
stated. -/
theorem C6_counterexample :
    ((10 : Nat) ≤ 12 ∧ (12 : Nat) < 10 + 5) ∧
    ToVirtualAddress ⟨some ⟨0, [(10, 5)], 2 ^ 64 - 11⟩, 12⟩
      ⟨0, [(10, 5)], 2 ^ 64 - 11⟩ = some 1 ∧
    ToFileAddress 1 ⟨0, [(10, 5)], 2 ^ 64 - 11⟩ = ⟨none, 0⟩ ∧
    (⟨none, 0⟩ : FileAddress) ≠ ⟨some ⟨0, [(10, 5)], 2 ^ 64 - 11⟩, 12⟩ := by
  refine ⟨by decide, by decide, by decide, by decide⟩

/-- C6 witness: an ELF with one section `[0x1000, 0x1100)` and load bias
`0x400000`; conversions in both directions, both round trips, and both
null cases at concrete addresses. -/
theorem C6_witness :
    ToVirtualAddress ⟨some ⟨0, [(0x1000, 0x100)], 0x400000⟩, 0x1010⟩
      ⟨0, [(0x1000, 0x100)], 0x400000⟩ = some (0x1010 + 0x400000) ∧
    ToFileAddress (0x1010 + 0x400000) ⟨0, [(0x1000, 0x100)], 0x400000⟩ =
      ⟨some ⟨0, [(0x1000, 0x100)], 0x400000⟩, 0x1010⟩ ∧
    ToFileAddress 0x401080 ⟨0, [(0x1000, 0x100)], 0x400000⟩ =
      { elf := some ⟨0, [(0x1000, 0x100)], 0x400000⟩,
        addr := 0x401080 - 0x400000 } ∧
    ToVirtualAddress (ToFileAddress 0x401080 ⟨0, [(0x1000, 0x100)], 0x400000⟩)
      ⟨0, [(0x1000, 0x100)], 0x400000⟩ = some 0x401080 ∧
    ToVirtualAddress ⟨some ⟨0, [(0x1000, 0x100)], 0x400000⟩, 5⟩
      ⟨0, [(0x1000, 0x100)], 0x400000⟩ = some 0 ∧
    ToFileAddress 3 ⟨0, [(0x1000, 0x100)], 0x400000⟩ = ⟨none, 0⟩ := by
  have h := C6_address_conversion ⟨0, [(0x1000, 0x100)], 0x400000⟩
    ⟨some ⟨0, [(0x1000, 0x100)], 0x400000⟩, 0x1010⟩ 0x401080
    (by decide) rfl
  have h2 := C6_address_conversion ⟨0, [(0x1000, 0x100)], 0x400000⟩
    ⟨some ⟨0, [(0x1000, 0x100)], 0x400000⟩, 5⟩ 3
    (by decide) rfl
  have hin := h.1 ⟨(0x1000, 0x100), by decide, by decide, by decide⟩
  have hvin := h.2.2.1 ⟨(0x1000, 0x100), by decide, by decide, by decide⟩
  exact ⟨hin.1, hin.2, hvin.1, hvin.2, h2.2.1 (by decide), h2.2.2.2 (by decide)⟩
